import Mathlib

/-!
Verification development for the torrent-session engine of cosmic-torrent
(src/torrent_engine.rs). The engine state, its lifecycle operations
(add_magnet, add_torrent_file, pause_torrent, resume_torrent, remove_torrent)
and one tick of the periodic update loop (start_update_loop) are embedded as
executable Lean definitions. The f32 progress arithmetic of the update loop is
modelled exactly: binary32 values are represented by the rational numbers they
denote, and every operation rounds to nearest (ties to even) with 24 bits of
significand, which is bit-exact IEEE 754 binary32 arithmetic on the normal
range of values the program manipulates.

Rational arithmetic is written with kernel-computable helpers (qadd, qmul,
qsub, natToQ, built on mkRat) so that concrete runs of the model can be
checked by the decide tactic; bridge lemmas prove each helper equal to the
corresponding Mathlib operation on the rationals.
-/

namespace CosmicTorrent

/-! ### Kernel-computable rational arithmetic -/

/-- Rational addition in kernel-computable form; equals Mathlib addition on the
rationals (see qadd_eq_add). -/
def qadd (a b : ℚ) : ℚ := mkRat (a.num * b.den + b.num * a.den) (a.den * b.den)

/-- Rational multiplication in kernel-computable form. -/
def qmul (a b : ℚ) : ℚ := mkRat (a.num * b.num) (a.den * b.den)

/-- Rational subtraction in kernel-computable form. -/
def qsub (a b : ℚ) : ℚ := mkRat (a.num * b.den - b.num * a.den) (a.den * b.den)

/-- Natural number as a rational, in kernel-computable form. -/
def natToQ (n : ℕ) : ℚ := mkRat (Int.ofNat n) 1

/-- Absolute value of a rational, in kernel-computable form. -/
def qabs (q : ℚ) : ℚ := if q < 0 then -q else q

theorem qadd_eq_add (a b : ℚ) : qadd a b = a + b := by
  unfold qadd
  rw [Rat.mkRat_eq_div]
  have ha : (a.den : ℚ) ≠ 0 := by exact_mod_cast a.den_nz
  have hb : (b.den : ℚ) ≠ 0 := by exact_mod_cast b.den_nz
  push_cast
  conv_rhs => rw [← Rat.num_div_den a, ← Rat.num_div_den b]
  field_simp

theorem qmul_eq_mul (a b : ℚ) : qmul a b = a * b := by
  unfold qmul
  rw [Rat.mkRat_eq_div]
  have ha : (a.den : ℚ) ≠ 0 := by exact_mod_cast a.den_nz
  have hb : (b.den : ℚ) ≠ 0 := by exact_mod_cast b.den_nz
  push_cast
  conv_rhs => rw [← Rat.num_div_den a, ← Rat.num_div_den b]
  field_simp

theorem qsub_eq_sub (a b : ℚ) : qsub a b = a - b := by
  unfold qsub
  rw [Rat.mkRat_eq_div]
  have ha : (a.den : ℚ) ≠ 0 := by exact_mod_cast a.den_nz
  have hb : (b.den : ℚ) ≠ 0 := by exact_mod_cast b.den_nz
  push_cast
  conv_rhs => rw [← Rat.num_div_den a, ← Rat.num_div_den b]
  field_simp
  ring

theorem natToQ_eq_cast (n : ℕ) : natToQ n = (n : ℚ) := by
  unfold natToQ
  rw [Rat.mkRat_eq_div]
  simp

theorem qabs_eq_abs (q : ℚ) : qabs q = |q| := by
  unfold qabs
  by_cases h : q < 0
  · simp [h, abs_of_neg h]
  · simp [h, abs_of_nonneg (le_of_not_lt h)]

/-! ### Exact binary32 model

A binary32 (f32) value is represented by the rational number it denotes.
rnd32 rounds an arbitrary rational to the nearest representable binary32
value (round-to-nearest, ties-to-even, 24-bit significand), covering the
normal range of the format, which contains every value the engine computes.
f32add and f32mul are then exactly the IEEE operations: compute the exact
rational result and round once. -/

/-- Binary scaling of a positive fraction n/d into the window d <= n < 2*d
by doubling one side; the value n/d times 2^e is invariant. The fuel bounds
the search and is far larger than the binary32 exponent range. -/
def normExp : ℕ → ℕ → ℕ → ℤ → (ℕ × ℕ × ℤ)
  | 0, n, d, e => (n, d, e)
  | f + 1, n, d, e =>
    if n < d then normExp f (2 * n) d (e - 1)
    else if 2 * d ≤ n then normExp f n (2 * d) (e + 1)
    else (n, d, e)

/-- Round a positive rational to the nearest binary32 value, ties to even. -/
def rnd32pos (q : ℚ) : ℚ :=
  let t := normExp 300 q.num.natAbs q.den 0
  let n := t.1
  let d := t.2.1
  let e := t.2.2
  let A := n * 2 ^ 23
  let fl := A / d
  let r := A % d
  let m2 := if d < 2 * r ∨ (2 * r = d ∧ fl % 2 = 1) then fl + 1 else fl
  mkRat (m2 * 2 ^ (e - 23).toNat) (2 ^ (23 - e).toNat)

/-- Round a rational to the nearest binary32 value (normal range). -/
def rnd32 (q : ℚ) : ℚ :=
  if q = 0 then 0 else if q < 0 then -(rnd32pos (-q)) else rnd32pos q

/-- IEEE binary32 addition: exact sum, rounded once. -/
def f32add (a b : ℚ) : ℚ := rnd32 (qadd a b)

/-- IEEE binary32 multiplication: exact product, rounded once. -/
def f32mul (a b : ℚ) : ℚ := rnd32 (qmul a b)

/-- Rust f32::min on non-NaN values: the smaller argument. -/
def fmin (a b : ℚ) : ℚ := if a ≤ b then a else b

/-- The Rust literal 0.01f32: the binary32 value nearest to 1/100. -/
def inc01 : ℚ := rnd32 (mkRat 1 100)

/-- Rust cast from u64 to f32: round the integer to the nearest binary32. -/
def u64_as_f32 (n : ℕ) : ℚ := rnd32 (natToQ n)

/-- Rust cast from f32 to u64: truncate toward zero, saturating at the
bounds of u64 (negative values go to 0). -/
def f32_as_u64 (q : ℚ) : ℕ := min (q.num.toNat / q.den) (2 ^ 64 - 1)

/-! ### Data model (torrent_engine.rs, lines 9-86)

u64 and u32 fields are modelled as ℕ: every reachable stats value in the
engine stays far below the wrap bound (stats start at zero and the update
loop keeps rates and counts below small moduli), so machine wrap-around is
unreachable and the ℕ model agrees with the machine integers. The i64 file
lengths, where the source casts with as u64, are modelled with the exact
two-complement wrap (i64_as_u64). -/

/-- Rust str::starts_with: the first characters of s spell out pre. -/
def starts_with (s pre : String) : Bool := s.take pre.length == pre

/-- The magnet identifier tag urn:btih: (torrent_engine.rs line 314). -/
def urnPre : String := "urn:btih:"

/-- Information about a single file in a torrent (struct FileInfo).
PathBuf is modelled as the string of the path. -/
structure FileInfo where
  path : String
  size : ℕ
deriving DecidableEq

/-- Metadata and file information for a torrent (struct TorrentInfo). -/
structure TorrentInfo where
  name : String
  size : ℕ
  info_hash : String
  announce_urls : List String
  files : List FileInfo
deriving DecidableEq

/-- Download/upload statistics and progress for a torrent (struct
TorrentStats); the f32 progress field is the rational value it denotes. -/
structure TorrentStats where
  downloaded : ℕ
  uploaded : ℕ
  download_rate : ℕ
  upload_rate : ℕ
  progress : ℚ
  peers : ℕ
  seeds : ℕ
deriving DecidableEq

/-- Events emitted by the torrent engine (enum TorrentEvent). -/
inductive TorrentEvent where
  | Added (info_hash : String) (info : TorrentInfo)
  | Progress (info_hash : String) (stats : TorrentStats)
  | Completed (info_hash : String)
  | Error (info_hash : String) (msg : String)
  | Paused (info_hash : String)
  | Resumed (info_hash : String)
deriving DecidableEq

/-- The identifier an event refers to (the first field of every variant). -/
def event_info_hash : TorrentEvent → String
  | .Added h _ => h
  | .Progress h _ => h
  | .Completed h => h
  | .Error h _ => h
  | .Paused h => h
  | .Resumed h => h

/-- Internal handle for a managed torrent (struct TorrentHandle). -/
structure TorrentHandle where
  info : TorrentInfo
  stats : TorrentStats
  paused : Bool
deriving DecidableEq

/-- Main engine state (struct TorrentEngine). The HashMap of torrents is
modelled as an association list (reachable states keep keys distinct); the
unbounded mpsc event channel is modelled as the list of all events sent so
far, a send appending at the end. -/
structure TorrentEngine where
  torrents : List (String × TorrentHandle)
  events : List TorrentEvent
  download_path : String
deriving DecidableEq

/-! ### HashMap operations on the association-list model -/

/-- HashMap::insert: replace the value at an existing key, else append. -/
def insertEntry (k : String) (v : TorrentHandle) :
    List (String × TorrentHandle) → List (String × TorrentHandle)
  | [] => [(k, v)]
  | kv :: rest => if kv.1 = k then (k, v) :: rest else kv :: insertEntry k v rest

/-- HashMap::get / get_mut lookup: value at the first matching key. -/
def lookupEntry (k : String) : List (String × TorrentHandle) → Option TorrentHandle
  | [] => none
  | kv :: rest => if kv.1 = k then some kv.2 else lookupEntry k rest

/-- In-place mutation through get_mut: update the value at the first
matching key, leave the rest alone. -/
def updateEntry (k : String) (f : TorrentHandle → TorrentHandle) :
    List (String × TorrentHandle) → List (String × TorrentHandle)
  | [] => []
  | kv :: rest => if kv.1 = k then (kv.1, f kv.2) :: rest else kv :: updateEntry k f rest

/-- HashMap::remove: drop the entry at the key. -/
def removeEntry (k : String) :
    List (String × TorrentHandle) → List (String × TorrentHandle)
  | [] => []
  | kv :: rest => if kv.1 = k then rest else kv :: removeEntry k rest

/-- Number of entries stored under a key (1 at most in reachable states). -/
def countKey (k : String) : List (String × TorrentHandle) → ℕ
  | [] => 0
  | kv :: rest => (if kv.1 = k then 1 else 0) + countKey k rest

/-! ### External collaborators

The url crate parser and the lava_torrent bencode parser are external
libraries, out of scope per the spec; the engine is embedded as a function
of their parse outcome. -/

/-- Outcome of Url::parse relevant to the engine: the scheme and the decoded
query pairs (url.query_pairs()). A failed parse is modelled as none at the
call site. -/
structure ParsedUrl where
  scheme : String
  query_pairs : List (String × String)
deriving DecidableEq

/-- One file entry of a parsed .torrent (lava_torrent File): a path and an
i64 length. -/
structure TFile where
  path : String
  length : ℤ
deriving DecidableEq

/-- A parsed .torrent (lava_torrent Torrent, v1). files is none for a
single-file torrent. info_hash_bytes stands for the SHA-1 digest
torrent.info_hash() computed by the external library. -/
structure Torrent where
  name : String
  length : ℤ
  files : Option (List TFile)
  announce : Option String
  announce_list : Option (List (List String))
  info_hash_bytes : List ℕ
deriving DecidableEq

/-- Lower-case hex digit of a value below 16 (hex crate alphabet). -/
def hexDigit (n : ℕ) : Char :=
  if n < 10 then Char.ofNat (48 + n) else Char.ofNat (87 + n)

/-- hex::encode: two lower-case hex digits per byte, in order. -/
def hex_encode (bs : List ℕ) : String :=
  String.mk ((bs.map (fun b => [hexDigit (b / 16), hexDigit (b % 16)])).flatten)

/-- Rust i64 to u64 cast: two-complement wrap. -/
def i64_as_u64 (i : ℤ) : ℕ := (i % (2 : ℤ) ^ 64).toNat

/-- Rust PathBuf::join: an absolute right-hand side replaces the path. -/
def path_join (base child : String) : String :=
  if starts_with child "/" then child else base ++ "/" ++ child

/-! ### Lifecycle controller (torrent_engine.rs, lines 107-272) -/

/-- Extract the info hash from a magnet URL (extract_info_hash, lines
311-319): first query pair whose key is xt and whose value starts with
urn:btih:, with that tag stripped. -/
def extract_info_hash (url : ParsedUrl) : Except String String :=
  match url.query_pairs.find? (fun kv => kv.1 == "xt" && starts_with kv.2 urnPre) with
  | some kv => .ok (kv.2.drop urnPre.length)
  | none => .error "No info hash found in magnet URL"

/-- All-zero statistics, as built by both add paths. -/
def zero_stats : TorrentStats :=
  { downloaded := 0, uploaded := 0, download_rate := 0, upload_rate := 0,
    progress := 0, peers := 0, seeds := 0 }

/-- The mock torrent info built by add_magnet (lines 121-131). -/
def magnet_torrent_info (info_hash : String) : TorrentInfo :=
  { name := "Torrent " ++ info_hash,
    size := 1024 * 1024 * 100,
    info_hash := info_hash,
    announce_urls := ["http://tracker.example.com:8080/announce"],
    files := [{ path := "example_file.txt", size := 1024 * 1024 * 100 }] }

/-- Add a torrent from a magnet URL (add_magnet, lines 110-157). The
argument is the outcome of Url::parse (none for a parse error). Returns the
new engine state and the info hash on success. -/
def add_magnet (engine : TorrentEngine) (magnet_url : Option ParsedUrl) :
    TorrentEngine × Except String String :=
  match magnet_url with
  | none => (engine, .error "Invalid magnet URL")
  | some url =>
    if url.scheme ≠ "magnet" then (engine, .error "Not a magnet URL")
    else
      match extract_info_hash url with
      | .error e => (engine, .error e)
      | .ok info_hash =>
        let torrent_info := magnet_torrent_info info_hash
        let handle : TorrentHandle :=
          { info := torrent_info, stats := zero_stats, paused := false }
        ({ engine with
            torrents := insertEntry info_hash handle engine.torrents,
            events := engine.events ++ [TorrentEvent.Added info_hash torrent_info] },
          .ok info_hash)

/-- The file list built by add_torrent_file (lines 174-188): explicit list
for a multi-file torrent, one entry named after the torrent otherwise. -/
def torrent_file_files (torrent : Torrent) : List FileInfo :=
  match torrent.files with
  | some files =>
    files.map (fun file => { path := path_join file.path "/", size := i64_as_u64 file.length })
  | none => [{ path := torrent.name, size := i64_as_u64 torrent.length }]

/-- The announce url list built by add_torrent_file (lines 196-209): start
empty, push the primary announce if present, then push every url of every
tier of the announce list in order. -/
def torrent_file_announce_urls (torrent : Torrent) : List String :=
  let urls : List String := []
  let urls :=
    match torrent.announce with
    | some announce => urls ++ [announce]
    | none => urls
  match torrent.announce_list with
  | some announce_list =>
    announce_list.foldl (fun acc tier => tier.foldl (fun acc2 url => acc2 ++ [url]) acc) urls
  | none => urls

/-- The torrent info built by add_torrent_file (lines 170-211). -/
def torrent_file_info (torrent : Torrent) : TorrentInfo :=
  let files := torrent_file_files torrent
  { name := torrent.name,
    size := (files.map FileInfo.size).sum,
    info_hash := hex_encode torrent.info_hash_bytes,
    announce_urls := torrent_file_announce_urls torrent,
    files := files }

/-- Add a torrent from a .torrent file (add_torrent_file, lines 162-237).
The argument is the combined outcome of fs::read and
Torrent::read_from_bytes (error for an unreadable or unparsable file). -/
def add_torrent_file (engine : TorrentEngine) (torrent_data : Except String Torrent) :
    TorrentEngine × Except String String :=
  match torrent_data with
  | .error e => (engine, .error e)
  | .ok torrent =>
    let info_hash := hex_encode torrent.info_hash_bytes
    let torrent_info := torrent_file_info torrent
    let handle : TorrentHandle :=
      { info := torrent_info, stats := zero_stats, paused := false }
    ({ engine with
        torrents := insertEntry info_hash handle engine.torrents,
        events := engine.events ++ [TorrentEvent.Added info_hash torrent_info] },
      .ok info_hash)

/-- Pause a torrent by its info hash (pause_torrent, lines 240-250). -/
def pause_torrent (engine : TorrentEngine) (info_hash : String) :
    TorrentEngine × Except String Unit :=
  match lookupEntry info_hash engine.torrents with
  | some _ =>
    ({ engine with
        torrents := updateEntry info_hash (fun h => { h with paused := true }) engine.torrents,
        events := engine.events ++ [TorrentEvent.Paused info_hash] },
      .ok ())
  | none => (engine, .error "Torrent not found")

/-- Resume a paused torrent by its info hash (resume_torrent, lines 253-263). -/
def resume_torrent (engine : TorrentEngine) (info_hash : String) :
    TorrentEngine × Except String Unit :=
  match lookupEntry info_hash engine.torrents with
  | some _ =>
    ({ engine with
        torrents := updateEntry info_hash (fun h => { h with paused := false }) engine.torrents,
        events := engine.events ++ [TorrentEvent.Resumed info_hash] },
      .ok ())
  | none => (engine, .error "Torrent not found")

/-- Remove a torrent by its info hash (remove_torrent, lines 266-272). -/
def remove_torrent (engine : TorrentEngine) (info_hash : String) :
    TorrentEngine × Except String Unit :=
  match lookupEntry info_hash engine.torrents with
  | some _ =>
    ({ engine with torrents := removeEntry info_hash engine.torrents }, .ok ())
  | none => (engine, .error "Torrent not found")

/-! ### Progress reporter (start_update_loop, lines 275-308)

One tick of the infinite per-second loop: every entry of the map is
visited; HashMap iteration is modelled as list order. -/

/-- The per-torrent body of the update loop (lines 282-305): when the
torrent is unpaused and below full progress, advance the f32 progress by
0.01 clamped at 1.0, update the simulated rates and counts, recompute
downloaded from the f32 product of the size and the new progress, emit a
Progress event, and emit Completed right after if the new progress reached
1.0. Otherwise leave the handle alone and emit nothing. -/
def update_torrent_stats (info_hash : String) (handle : TorrentHandle) :
    TorrentHandle × List TorrentEvent :=
  if handle.paused = false ∧ handle.stats.progress < 1 then
    let progress2 := fmin (f32add handle.stats.progress inc01) 1
    let stats2 : TorrentStats :=
      { downloaded := f32_as_u64 (f32mul (u64_as_f32 handle.info.size) progress2),
        uploaded := handle.stats.uploaded,
        download_rate := (handle.stats.download_rate + 1024) % (1024 * 1024),
        upload_rate := (handle.stats.upload_rate + 512) % (1024 * 512),
        progress := progress2,
        peers := handle.stats.peers % 50 + 1,
        seeds := handle.stats.seeds % 20 + 1 }
    ({ handle with stats := stats2 },
      [TorrentEvent.Progress info_hash stats2] ++
        (if (1 : ℚ) ≤ progress2 then [TorrentEvent.Completed info_hash] else []))
  else (handle, [])

/-- The events sent during one tick, in emission order. -/
def tick_new_events (engine : TorrentEngine) : List TorrentEvent :=
  (engine.torrents.map (fun kv => (update_torrent_stats kv.1 kv.2).2)).flatten

/-- One tick of start_update_loop over the whole engine state. -/
def engine_tick (engine : TorrentEngine) : TorrentEngine :=
  { engine with
    torrents := engine.torrents.map (fun kv => (kv.1, (update_torrent_stats kv.1 kv.2).1)),
    events := engine.events ++ tick_new_events engine }

/-! ### The progress trajectory of one torrent across reporter ticks -/

/-- A freshly admitted handle: zero stats, not paused (both add paths). -/
def fresh_handle (info : TorrentInfo) : TorrentHandle :=
  { info := info, stats := zero_stats, paused := false }

/-- The f32 progress step of one tick for an unpaused torrent: advance by
the literal 0.01f32 and clamp at 1.0 while below 1.0, else unchanged. -/
def stepP (p : ℚ) : ℚ := if p < 1 then fmin (f32add p inc01) 1 else p

/-- The progress value after n ticks, starting from admission. -/
def progressAt : ℕ → ℚ
  | 0 => 0
  | n + 1 => stepP (progressAt n)

/-- The handle of a torrent that stays unpaused and is not otherwise
mutated, after n reporter ticks from its admission. -/
def runHandle (info_hash : String) (info : TorrentInfo) : ℕ → TorrentHandle
  | 0 => fresh_handle info
  | n + 1 => (update_torrent_stats info_hash (runHandle info_hash info n)).1

/-- The events the reporter emits for this torrent on tick n+1. -/
def tickEvents (info_hash : String) (info : TorrentInfo) (n : ℕ) : List TorrentEvent :=
  (update_torrent_stats info_hash (runHandle info_hash info n)).2

theorem uts_paused (k : String) (h : TorrentHandle) :
    (update_torrent_stats k h).1.paused = h.paused := by
  unfold update_torrent_stats; split <;> rfl

theorem uts_info (k : String) (h : TorrentHandle) :
    (update_torrent_stats k h).1.info = h.info := by
  unfold update_torrent_stats; split <;> rfl

theorem uts_progress (k : String) (h : TorrentHandle) :
    (update_torrent_stats k h).1.stats.progress =
      if h.paused = false ∧ h.stats.progress < 1
      then fmin (f32add h.stats.progress inc01) 1 else h.stats.progress := by
  unfold update_torrent_stats; split <;> simp_all

theorem run_paused (k : String) (i : TorrentInfo) (n : ℕ) :
    (runHandle k i n).paused = false := by
  induction n with
  | zero => rfl
  | succ n ih => rw [runHandle, uts_paused, ih]

theorem run_info (k : String) (i : TorrentInfo) (n : ℕ) :
    (runHandle k i n).info = i := by
  induction n with
  | zero => rfl
  | succ n ih => rw [runHandle, uts_info, ih]

theorem run_progress (k : String) (i : TorrentInfo) (n : ℕ) :
    (runHandle k i n).stats.progress = progressAt n := by
  induction n with
  | zero => rfl
  | succ n ih =>
    rw [runHandle, progressAt, uts_progress, run_paused, ih, stepP]
    simp

theorem uts_skip (k : String) (h : TorrentHandle) (hp : ¬ h.stats.progress < 1) :
    update_torrent_stats k h = (h, []) := by
  unfold update_torrent_stats
  rw [if_neg]
  simp [hp]

set_option maxRecDepth 8000 in
theorem progressAt_lt_one : ∀ n < 101, progressAt n < 1 := by decide

set_option maxRecDepth 8000 in
theorem progressAt_101 : progressAt 101 = 1 := by decide

set_option maxRecDepth 8000 in
theorem progressAt_mono_bounded : ∀ n < 101, progressAt n ≤ progressAt (n + 1) := by decide

theorem progressAt_of_ge (n : ℕ) (hn : 101 ≤ n) : progressAt n = 1 := by
  induction n with
  | zero => omega
  | succ n ih =>
    rcases Nat.lt_or_ge n 101 with hlt | hge
    · have : n = 100 := by omega
      subst this
      exact progressAt_101
    · rw [progressAt, ih hge, stepP]
      simp

theorem progressAt_mono (n : ℕ) : progressAt n ≤ progressAt (n + 1) := by
  rcases Nat.lt_or_ge n 101 with hlt | hge
  · exact progressAt_mono_bounded n hlt
  · rw [progressAt_of_ge n hge, progressAt_of_ge (n + 1) (by omega)]

theorem tickEvents_skip (k : String) (i : TorrentInfo) (n : ℕ)
    (h : 1 ≤ progressAt n) : tickEvents k i n = [] := by
  unfold tickEvents
  rw [uts_skip]
  rw [run_progress]
  exact not_lt.mpr h

theorem completed_mem_tickEvents (k : String) (i : TorrentInfo) (n : ℕ) :
    TorrentEvent.Completed k ∈ tickEvents k i n ↔
      (progressAt n < 1 ∧ 1 ≤ progressAt (n + 1)) := by
  unfold tickEvents update_torrent_stats
  by_cases hlt : progressAt n < 1
  · rw [if_pos (by rw [run_paused, run_progress]; exact ⟨rfl, hlt⟩)]
    have hstep : progressAt (n + 1) = fmin (f32add (progressAt n) inc01) 1 := by
      rw [progressAt, stepP, if_pos hlt]
    simp only [run_progress, ← hstep]
    by_cases hge : (1 : ℚ) ≤ progressAt (n + 1)
    · simp [hge, hlt]
    · simp [hge, hlt]
  · rw [if_neg (by rw [run_paused, run_progress]; simp [hlt])]
    simp [hlt]

theorem completed_iff_tick101 (k : String) (i : TorrentInfo) (n : ℕ) :
    TorrentEvent.Completed k ∈ tickEvents k i n ↔ n = 100 := by
  rw [completed_mem_tickEvents]
  constructor
  · rintro ⟨h1, h2⟩
    by_contra hne
    rcases Nat.lt_or_ge n 101 with hlt | hge
    · have : n + 1 < 101 := by omega
      exact absurd h2 (not_le.mpr (progressAt_lt_one (n + 1) this))
    · exact absurd h1 (by rw [progressAt_of_ge n hge]; exact lt_irrefl 1)
  · rintro rfl
    exact ⟨progressAt_lt_one 100 (by omega), le_of_eq progressAt_101.symm⟩

theorem uts_active_events (k : String) (h : TorrentHandle)
    (hpaused : h.paused = false) (hlt : h.stats.progress < 1)
    (hone : fmin (f32add h.stats.progress inc01) 1 = 1) :
    (update_torrent_stats k h).2 =
      [TorrentEvent.Progress k ((update_torrent_stats k h).1.stats),
        TorrentEvent.Completed k] := by
  unfold update_torrent_stats
  rw [if_pos ⟨hpaused, hlt⟩]
  simp [hone]

theorem tick_shape_completing (k : String) (i : TorrentInfo) (n : ℕ)
    (hlt : progressAt n < 1) (hone : progressAt (n + 1) = 1) :
    tickEvents k i n =
      [TorrentEvent.Progress k ((runHandle k i (n + 1)).stats), TorrentEvent.Completed k] := by
  have hlt2 : (runHandle k i n).stats.progress < 1 := by rw [run_progress]; exact hlt
  have honem : fmin (f32add ((runHandle k i n).stats.progress) inc01) 1 = 1 := by
    rw [run_progress]
    rw [progressAt, stepP, if_pos hlt] at hone
    exact hone
  have hrw : runHandle k i (n + 1) = (update_torrent_stats k (runHandle k i n)).1 := by
    rw [runHandle]
  show (update_torrent_stats k (runHandle k i n)).2 = _
  rw [hrw]
  exact uts_active_events k (runHandle k i n) (run_paused k i n) hlt2 honem

theorem tick101_shape (k : String) (i : TorrentInfo) :
    tickEvents k i 100 =
      [TorrentEvent.Progress k ((runHandle k i 101).stats), TorrentEvent.Completed k] :=
  tick_shape_completing k i 100 (progressAt_lt_one 100 (by omega)) progressAt_101

/-- Claim C2: for a torrent that stays unpaused and is not otherwise mutated
across reporter ticks, progress is non-decreasing from tick to tick, the
reporter skips it (emits nothing for it) once progress has reached 1.0, the
Completed event for its identifier is emitted on exactly one tick, namely
the tick on which progress first reaches 1.0 (the 101st: progress is below
1.0 after 100 ticks and equal to 1.0 after 101), and on that tick Completed
comes immediately after that tick Progress event. -/
theorem C2_reporter_trajectory (k : String) (i : TorrentInfo) :
    (∀ n, (runHandle k i n).stats.progress ≤ (runHandle k i (n + 1)).stats.progress) ∧
    (∀ n, 1 ≤ (runHandle k i n).stats.progress → tickEvents k i n = []) ∧
    (∀ n, TorrentEvent.Completed k ∈ tickEvents k i n ↔ n = 100) ∧
    ((runHandle k i 100).stats.progress < 1 ∧ (runHandle k i 101).stats.progress = 1) ∧
    tickEvents k i 100 =
      [TorrentEvent.Progress k ((runHandle k i 101).stats), TorrentEvent.Completed k] := by
  refine ⟨?_, ?_, ?_, ⟨?_, ?_⟩, tick101_shape k i⟩
  · intro n
    rw [run_progress, run_progress]
    exact progressAt_mono n
  · intro n hn
    rw [run_progress] at hn
    exact tickEvents_skip k i n hn
  · intro n
    exact completed_iff_tick101 k i n
  · rw [run_progress]
    exact progressAt_lt_one 100 (by omega)
  · rw [run_progress]
    exact progressAt_101

/-- A concrete torrent info used to instantiate theorems with hypotheses. -/
def info100 : TorrentInfo :=
  { name := "a.txt", size := 100, info_hash := "h100",
    announce_urls := [], files := [{ path := "a.txt", size := 100 }] }

/-- Witness for C2: at the concrete identifier and metadata, the tick after
completion emits nothing, and Completed is emitted on the 101st tick. -/
theorem C2_reporter_trajectory_witness :
    tickEvents "h100" info100 101 = [] ∧
      TorrentEvent.Completed "h100" ∈ tickEvents "h100" info100 100 :=
  ⟨(C2_reporter_trajectory "h100" info100).2.1 101
      (by rw [run_progress, progressAt_of_ge 101 (le_refl 101)]),
    ((C2_reporter_trajectory "h100" info100).2.2.1 100).mpr rfl⟩

/-! ### Claim C3: the downloaded-bytes recomputation -/

theorem uts_downloaded (k : String) (h : TorrentHandle)
    (hpaused : h.paused = false) (hlt : h.stats.progress < 1) :
    (update_torrent_stats k h).1.stats.downloaded =
      f32_as_u64 (f32mul (u64_as_f32 h.info.size)
        (fmin (f32add h.stats.progress inc01) 1)) := by
  unfold update_torrent_stats
  rw [if_pos ⟨hpaused, hlt⟩]

/-- Claim C3 counterexample: for the size-100 torrent, on the fifth
reporter tick the emitted Progress event carries downloaded = 4, while
round(100 x progress) = 5 and the exact product 100 x progress is not 4
either: the code truncates the f32 product instead of rounding the exact
one. -/
theorem C3_counterexample :
    tickEvents "h100" info100 4 =
      [TorrentEvent.Progress "h100" ((runHandle "h100" info100 5).stats)] ∧
    (runHandle "h100" info100 5).stats.downloaded = 4 ∧
    round ((100 : ℚ) * (runHandle "h100" info100 5).stats.progress) = 5 ∧
    ((runHandle "h100" info100 5).stats.downloaded : ℚ) ≠
      (100 : ℚ) * (runHandle "h100" info100 5).stats.progress := by
  have hp : (runHandle "h100" info100 5).stats.progress = mkRat 3355443 67108864 := by
    decide
  have hd : (runHandle "h100" info100 5).stats.downloaded = 4 := by decide
  refine ⟨by decide, hd, ?_, ?_⟩
  · rw [hp, Rat.mkRat_eq_div]
    rw [round_eq]
    norm_num
  · rw [hp, hd, Rat.mkRat_eq_div]
    norm_num

set_option maxRecDepth 8000 in
theorem c3_bound_check :
    ∀ n < 102,
      qabs (qsub (natToQ ((runHandle "h100" info100 n).stats.downloaded))
          (qmul (natToQ 100) (progressAt n))) < 1 := by
  decide

/-- Claim C3 amended: on every reporter tick of the size-100 torrent,
the recomputed downloaded value is the u64 truncation of the binary32
product of the size and the new progress; it therefore lies strictly
within 1 of the exact product 100 x progress (so it is round(100 x
progress) on some ticks and round(100 x progress) - 1 on others), rather
than being round(100 x progress) on every tick. -/
theorem C3_downloaded_bound (n : ℕ) (h1 : 1 ≤ n) (h2 : n ≤ 101) :
    (runHandle "h100" info100 n).stats.downloaded =
      f32_as_u64 (f32mul (u64_as_f32 100) (progressAt n)) ∧
    |((runHandle "h100" info100 n).stats.downloaded : ℚ) - 100 * progressAt n| < 1 := by
  constructor
  · obtain ⟨m, rfl⟩ : ∃ m, n = m + 1 := ⟨n - 1, by omega⟩
    have hplt : progressAt m < 1 := progressAt_lt_one m (by omega)
    have hlt : (runHandle "h100" info100 m).stats.progress < 1 := by
      rw [run_progress]; exact hplt
    have hstep : fmin (f32add (progressAt m) inc01) 1 = progressAt (m + 1) := by
      rw [progressAt, stepP, if_pos hplt]
    rw [runHandle, uts_downloaded _ _ (run_paused _ _ m) hlt, run_info, run_progress, hstep]
    rfl
  · have hb := c3_bound_check n (by omega)
    rwa [qabs_eq_abs, qsub_eq_sub, natToQ_eq_cast, qmul_eq_mul, natToQ_eq_cast,
      Nat.cast_ofNat] at hb

/-- Witness for amended C3 at the fifth tick. -/
theorem C3_downloaded_bound_witness :
    |((runHandle "h100" info100 5).stats.downloaded : ℚ) - 100 * progressAt 5| < 1 :=
  (C3_downloaded_bound 5 (by omega) (by omega)).2

/-! ### Registry lemmas -/

theorem lookup_insert (k : String) (v : TorrentHandle) :
    ∀ l, lookupEntry k (insertEntry k v l) = some v
  | [] => by simp [insertEntry, lookupEntry]
  | kv :: rest => by
    by_cases h : kv.1 = k
    · simp [insertEntry, h, lookupEntry]
    · simp [insertEntry, h, lookupEntry, lookup_insert k v rest]

theorem lookup_update (k : String) (f : TorrentHandle → TorrentHandle) :
    ∀ l, lookupEntry k (updateEntry k f l) = (lookupEntry k l).map f
  | [] => rfl
  | kv :: rest => by
    by_cases h : kv.1 = k
    · simp [updateEntry, h, lookupEntry]
    · simp [updateEntry, h, lookupEntry, lookup_update k f rest]

theorem countKey_of_not_mem (k : String) :
    ∀ l, k ∉ l.map Prod.fst → countKey k l = 0
  | [], _ => rfl
  | kv :: rest, h => by
    have h1 : ¬ kv.1 = k := by
      intro e
      exact h (by simp [e])
    have h2 : k ∉ rest.map Prod.fst := by
      intro e
      exact h (by simp [e])
    simp [countKey, h1, countKey_of_not_mem k rest h2]

theorem countKey_insert_present (k : String) (v : TorrentHandle) :
    ∀ l, lookupEntry k l ≠ none → countKey k (insertEntry k v l) = countKey k l
  | [], h => absurd rfl h
  | kv :: rest, h => by
    by_cases hk : kv.1 = k
    · simp [insertEntry, hk, countKey]
    · have h2 : lookupEntry k rest ≠ none := by
        simpa [lookupEntry, hk] using h
      simp [insertEntry, hk, countKey, countKey_insert_present k v rest h2]

theorem countKey_eq_one_of_nodup (k : String) :
    ∀ l, (l.map Prod.fst).Nodup → lookupEntry k l ≠ none → countKey k l = 1
  | [], _, h => absurd rfl h
  | kv :: rest, hn, h => by
    rw [List.map_cons] at hn
    obtain ⟨hhd, hn2⟩ := List.nodup_cons.mp hn
    by_cases hk : kv.1 = k
    · have hnm : k ∉ rest.map Prod.fst := by rwa [hk] at hhd
      simp [countKey, hk, countKey_of_not_mem k rest hnm]
    · have h2 : lookupEntry k rest ≠ none := by
        simpa [lookupEntry, hk] using h
      simp [countKey, hk, countKey_eq_one_of_nodup k rest hn2 h2]

theorem key_unique :
    ∀ l : List (String × TorrentHandle), (l.map Prod.fst).Nodup →
      ∀ {k h h2}, (k, h) ∈ l → (k, h2) ∈ l → h = h2
  | [], _, _, _, _, hm, _ => absurd hm (by simp)
  | kv :: rest, hn, k, h, h2, hm1, hm2 => by
    rw [List.map_cons] at hn
    obtain ⟨hhd, hn2⟩ := List.nodup_cons.mp hn
    rcases List.mem_cons.mp hm1 with e1 | m1 <;> rcases List.mem_cons.mp hm2 with e2 | m2
    · rw [← e1] at e2; exact congrArg Prod.snd e2.symm
    · exfalso
      apply hhd
      rw [show kv.1 = k from congrArg Prod.fst e1.symm]
      exact List.mem_map.mpr ⟨(k, h2), m2, rfl⟩
    · exfalso
      apply hhd
      rw [show kv.1 = k from congrArg Prod.fst e2.symm]
      exact List.mem_map.mpr ⟨(k, h), m1, rfl⟩
    · exact key_unique rest hn2 m1 m2

/-- Dropping the length of a left append returns the right part. -/
theorem drop_length_append (a b : String) : (a ++ b).drop a.length = b := by
  apply String.ext
  rw [String.data_drop, String.data_append]
  exact List.drop_left a.data b.data

/-- Equality of engine results is decidable, so concrete runs can be
checked by the decide tactic. -/
instance : DecidableEq (Except String String)
  | .ok a, .ok b => decidable_of_iff (a = b) (by simp)
  | .ok _, .error _ => isFalse (fun h => Except.noConfusion h)
  | .error _, .ok _ => isFalse (fun h => Except.noConfusion h)
  | .error a, .error b => decidable_of_iff (a = b) (by simp)

/-! ### Structural lemmas for the add paths -/

theorem add_magnet_ok (engine : TorrentEngine) (u : ParsedUrl) (X : String)
    (hscheme : u.scheme = "magnet") (hX : extract_info_hash u = .ok X) :
    add_magnet engine (some u) =
      ({ engine with
          torrents := insertEntry X
            { info := magnet_torrent_info X, stats := zero_stats, paused := false }
            engine.torrents,
          events := engine.events ++ [TorrentEvent.Added X (magnet_torrent_info X)] },
        .ok X) := by
  simp only [add_magnet]
  rw [if_neg (by simp [hscheme]), hX]

theorem add_torrent_file_ok (engine : TorrentEngine) (t : Torrent) :
    add_torrent_file engine (.ok t) =
      ({ engine with
          torrents := insertEntry (hex_encode t.info_hash_bytes)
            { info := torrent_file_info t, stats := zero_stats, paused := false }
            engine.torrents,
          events := engine.events ++
            [TorrentEvent.Added (hex_encode t.info_hash_bytes) (torrent_file_info t)] },
        .ok (hex_encode t.info_hash_bytes)) := rfl

/-! ### Claim C1: duplicate admission -/

/-- A sample parsed magnet URI carrying identifier abc. -/
def sampleUrl : ParsedUrl :=
  { scheme := "magnet", query_pairs := [("xt", "urn:btih:abc")] }

/-- A sample handle for identifier abc, paused so that it differs from a
freshly admitted one. -/
def h0abc : TorrentHandle :=
  { info := magnet_torrent_info "abc", stats := zero_stats, paused := true }

/-- An engine state already holding a handle for identifier abc. -/
def engineAbc : TorrentEngine :=
  { torrents := [("abc", h0abc)], events := [], download_path := "/tmp" }

/-- An empty engine state. -/
def engineEmpty : TorrentEngine :=
  { torrents := [], events := [], download_path := "/tmp" }

/-- Claim C1 counterexample: with a handle for abc already registered,
add_magnet on a magnet URI carrying abc does not fail with any error: it
returns ok abc and silently replaces the stored handle with a freshly
constructed one, different from the existing handle. -/
theorem C1_counterexample :
    (add_magnet engineAbc (some sampleUrl)).2 = .ok "abc" ∧
    lookupEntry "abc" (add_magnet engineAbc (some sampleUrl)).1.torrents =
      some { info := magnet_torrent_info "abc", stats := zero_stats, paused := false } ∧
    ({ info := magnet_torrent_info "abc", stats := zero_stats, paused := false } :
      TorrentHandle) ≠ h0abc := by
  refine ⟨by decide, by decide, by decide⟩

/-- Claim C1 amended: adding an identifier that is already registered (by
magnet or by file) succeeds and returns the identifier rather than failing
with DuplicateIdentifier; the registry still holds exactly one handle for
it, but that handle is a freshly constructed one overwriting the previous
handle. -/
theorem C1_duplicate_overwrite (engine : TorrentEngine) (X : String)
    (h0 : TorrentHandle) (hpresent : lookupEntry X engine.torrents = some h0)
    (hnodup : (engine.torrents.map Prod.fst).Nodup) :
    (∀ u : ParsedUrl, u.scheme = "magnet" → extract_info_hash u = .ok X →
      (add_magnet engine (some u)).2 = .ok X ∧
      countKey X (add_magnet engine (some u)).1.torrents = 1 ∧
      lookupEntry X (add_magnet engine (some u)).1.torrents =
        some { info := magnet_torrent_info X, stats := zero_stats, paused := false }) ∧
    (∀ t : Torrent, hex_encode t.info_hash_bytes = X →
      (add_torrent_file engine (.ok t)).2 = .ok X ∧
      countKey X (add_torrent_file engine (.ok t)).1.torrents = 1 ∧
      lookupEntry X (add_torrent_file engine (.ok t)).1.torrents =
        some { info := torrent_file_info t, stats := zero_stats, paused := false }) := by
  have hne : lookupEntry X engine.torrents ≠ none := by rw [hpresent]; exact fun h => by cases h
  have hcount := countKey_eq_one_of_nodup X engine.torrents hnodup hne
  constructor
  · intro u hscheme hX
    rw [add_magnet_ok engine u X hscheme hX]
    exact ⟨rfl, by rw [countKey_insert_present X _ engine.torrents hne, hcount],
      lookup_insert X _ engine.torrents⟩
  · intro t hhex
    rw [add_torrent_file_ok engine t, hhex]
    exact ⟨rfl, by rw [countKey_insert_present X _ engine.torrents hne, hcount],
      lookup_insert X _ engine.torrents⟩

/-- Witness for amended C1 on the concrete duplicate-magnet scenario. -/
theorem C1_duplicate_overwrite_witness :
    (add_magnet engineAbc (some sampleUrl)).2 = .ok "abc" ∧
    countKey "abc" (add_magnet engineAbc (some sampleUrl)).1.torrents = 1 :=
  have h := (C1_duplicate_overwrite engineAbc "abc" h0abc (by decide) (by decide)).1
    sampleUrl (by decide) (by decide)
  ⟨h.1, h.2.1⟩

/-! ### Claim C4: malformed magnet inputs -/

/-- Claim C4: on every malformed magnet input, namely a string that does
not parse as a URI, a URI whose scheme is not magnet, or one with no xt
query parameter whose value starts with urn:btih:, add_by_magnet fails and
the engine state is returned unchanged: registry untouched, no handle
inserted, no event emitted. -/
theorem C4_malformed_magnet (engine : TorrentEngine) (input : Option ParsedUrl)
    (h : input = none ∨ (∃ u, input = some u ∧ u.scheme ≠ "magnet") ∨
      (∃ u, input = some u ∧
        ∀ kv ∈ u.query_pairs, ¬(kv.1 = "xt" ∧ starts_with kv.2 urnPre = true))) :
    ∃ msg, add_magnet engine input = (engine, .error msg) := by
  rcases h with rfl | ⟨u, rfl, hs⟩ | ⟨u, rfl, hq⟩
  · exact ⟨_, rfl⟩
  · exact ⟨_, by simp only [add_magnet]; rw [if_pos hs]⟩
  · by_cases hs : u.scheme = "magnet"
    · have hfind : u.query_pairs.find?
          (fun kv => kv.1 == "xt" && starts_with kv.2 urnPre) = none := by
        rw [List.find?_eq_none]
        intro kv hkv
        have := hq kv hkv
        simp only [Bool.and_eq_true, beq_iff_eq]
        intro hcon
        exact this ⟨hcon.1, hcon.2⟩
      refine ⟨"No info hash found in magnet URL", ?_⟩
      simp only [add_magnet]
      rw [if_neg (by simp [hs])]
      simp only [extract_info_hash]
      rw [hfind]
    · exact ⟨_, by simp only [add_magnet]; rw [if_pos hs]⟩

/-- Witness for C4 on a URI with the wrong scheme. -/
theorem C4_malformed_magnet_witness :
    ∃ msg, add_magnet engineEmpty
      (some { scheme := "http", query_pairs := [("xt", "urn:btih:abc")] }) =
      (engineEmpty, .error msg) :=
  C4_malformed_magnet engineEmpty _ (Or.inr (Or.inl ⟨_, rfl, by decide⟩))

/-! ### Claim C5: well-formed magnet admission -/

/-- Claim C5: for a well-formed magnet URI with scheme magnet whose first
matching xt query parameter carries urn:btih: followed by X, add_by_magnet
succeeds, returns exactly X (the value with the tag stripped, verbatim),
stores a handle under X, and emits exactly one new event: Added with
identifier X. -/
theorem C5_wellformed_magnet (engine : TorrentEngine) (u : ParsedUrl)
    (kv : String × String) (X : String) (hscheme : u.scheme = "magnet")
    (hfind : u.query_pairs.find?
      (fun p => p.1 == "xt" && starts_with p.2 urnPre) = some kv)
    (hval : kv.2 = urnPre ++ X) :
    (add_magnet engine (some u)).2 = .ok X ∧
    (add_magnet engine (some u)).1.events =
      engine.events ++ [TorrentEvent.Added X (magnet_torrent_info X)] ∧
    lookupEntry X (add_magnet engine (some u)).1.torrents =
      some { info := magnet_torrent_info X, stats := zero_stats, paused := false } := by
  have hX : extract_info_hash u = .ok X := by
    simp only [extract_info_hash]
    rw [hfind]
    show Except.ok (kv.2.drop urnPre.length) = Except.ok X
    rw [hval, drop_length_append]
  rw [add_magnet_ok engine u X hscheme hX]
  exact ⟨rfl, rfl, lookup_insert X _ engine.torrents⟩

/-- Witness for C5 on a concrete magnet URI carrying abc. -/
theorem C5_wellformed_magnet_witness :
    (add_magnet engineEmpty (some sampleUrl)).2 = .ok "abc" ∧
    (add_magnet engineEmpty (some sampleUrl)).1.events =
      engineEmpty.events ++ [TorrentEvent.Added "abc" (magnet_torrent_info "abc")] :=
  have h := C5_wellformed_magnet engineEmpty sampleUrl ("xt", "urn:btih:abc") "abc"
    (by decide) (by decide) (by decide)
  ⟨h.1, h.2.1⟩

/-! ### Claim C9: the magnet placeholder metadata -/

/-- Claim C9: every successful add_by_magnet stores a handle whose metadata
is the fixed placeholder determined by the extracted identifier alone: name
is Torrent followed by the identifier, total size 104857600 bytes, exactly
one file entry example_file.txt of that same size, exactly one hard-coded
tracker URL, all-zero starting stats and paused = false. -/
theorem C9_magnet_placeholder (engine : TorrentEngine) (u : ParsedUrl) (X : String)
    (hscheme : u.scheme = "magnet") (hX : extract_info_hash u = .ok X) :
    lookupEntry X (add_magnet engine (some u)).1.torrents =
      some { info := { name := "Torrent " ++ X, size := 104857600, info_hash := X,
                       announce_urls := ["http://tracker.example.com:8080/announce"],
                       files := [{ path := "example_file.txt", size := 104857600 }] },
             stats := { downloaded := 0, uploaded := 0, download_rate := 0,
                        upload_rate := 0, progress := 0, peers := 0, seeds := 0 },
             paused := false } := by
  rw [add_magnet_ok engine u X hscheme hX]
  show lookupEntry X (insertEntry X _ engine.torrents) = _
  rw [lookup_insert]
  rfl

/-- Witness for C9 on the concrete magnet URI carrying abc. -/
theorem C9_magnet_placeholder_witness :
    lookupEntry "abc" (add_magnet engineEmpty (some sampleUrl)).1.torrents =
      some { info := { name := "Torrent " ++ "abc", size := 104857600, info_hash := "abc",
                       announce_urls := ["http://tracker.example.com:8080/announce"],
                       files := [{ path := "example_file.txt", size := 104857600 }] },
             stats := { downloaded := 0, uploaded := 0, download_rate := 0,
                        upload_rate := 0, progress := 0, peers := 0, seeds := 0 },
             paused := false } :=
  C9_magnet_placeholder engineEmpty sampleUrl "abc" (by decide) (by decide)

/-! ### Claim C8: pause and resume round-trip -/

theorem pause_ok (engine : TorrentEngine) (ih : String) (h0 : TorrentHandle)
    (hp : lookupEntry ih engine.torrents = some h0) :
    pause_torrent engine ih =
      ({ engine with
          torrents := updateEntry ih (fun h => { h with paused := true }) engine.torrents,
          events := engine.events ++ [TorrentEvent.Paused ih] }, .ok ()) := by
  simp only [pause_torrent]
  rw [hp]

theorem resume_ok (engine : TorrentEngine) (ih : String) (h0 : TorrentHandle)
    (hp : lookupEntry ih engine.torrents = some h0) :
    resume_torrent engine ih =
      ({ engine with
          torrents := updateEntry ih (fun h => { h with paused := false }) engine.torrents,
          events := engine.events ++ [TorrentEvent.Resumed ih] }, .ok ()) := by
  simp only [resume_torrent]
  rw [hp]

/-- Claim C8: for a registered identifier, pause then resume both succeed,
each appending exactly its one event, and the stored handle ends with
paused = false and statistics identical, field for field, to those before
the pause. -/
theorem C8_pause_resume_roundtrip (engine : TorrentEngine) (ih : String)
    (h0 : TorrentHandle) (hp : lookupEntry ih engine.torrents = some h0) :
    (pause_torrent engine ih).2 = .ok () ∧
    (resume_torrent (pause_torrent engine ih).1 ih).2 = .ok () ∧
    lookupEntry ih (resume_torrent (pause_torrent engine ih).1 ih).1.torrents =
      some { h0 with paused := false } ∧
    ({ h0 with paused := false } : TorrentHandle).stats = h0.stats ∧
    ({ h0 with paused := false } : TorrentHandle).paused = false ∧
    (pause_torrent engine ih).1.events = engine.events ++ [TorrentEvent.Paused ih] ∧
    (resume_torrent (pause_torrent engine ih).1 ih).1.events =
      engine.events ++ [TorrentEvent.Paused ih, TorrentEvent.Resumed ih] := by
  have h1 := pause_ok engine ih h0 hp
  have hlook1 : lookupEntry ih (pause_torrent engine ih).1.torrents =
      some { h0 with paused := true } := by
    rw [h1]
    show lookupEntry ih (updateEntry ih _ engine.torrents) = _
    rw [lookup_update, hp]
    rfl
  have h2 := resume_ok (pause_torrent engine ih).1 ih { h0 with paused := true } hlook1
  refine ⟨by rw [h1], by rw [h2], ?_, rfl, rfl, by rw [h1], ?_⟩
  · rw [h2]
    show lookupEntry ih (updateEntry ih _ (pause_torrent engine ih).1.torrents) = _
    rw [lookup_update, hlook1]
    rfl
  · rw [h2, h1]
    simp

/-- Witness for C8 on the concrete engine holding identifier abc. -/
theorem C8_pause_resume_roundtrip_witness :
    (pause_torrent engineAbc "abc").2 = .ok () ∧
    lookupEntry "abc"
        (resume_torrent (pause_torrent engineAbc "abc").1 "abc").1.torrents =
      some { h0abc with paused := false } :=
  have h := C8_pause_resume_roundtrip engineAbc "abc" h0abc (by decide)
  ⟨h.1, h.2.2.1⟩

/-! ### Claim C6: metadata totals and file order -/

/-- Claim C6: for every parsed metadata stream, the constructed metadata has
total_size equal to the sum of the per-file sizes; for a multi-file torrent
the files sequence has one entry per input file, in input order, each with
the size of the corresponding input entry; for a single-file torrent there
is exactly one entry, named after the torrent, whose size (and the total)
is the single length. -/
theorem C6_metadata_totals (t : Torrent) :
    (torrent_file_info t).size = ((torrent_file_info t).files.map FileInfo.size).sum ∧
    (∀ fs, t.files = some fs →
      (torrent_file_info t).files.length = fs.length ∧
      ∀ i (hi : i < fs.length),
        (torrent_file_info t).files[i]? =
          some { path := path_join (fs.get ⟨i, hi⟩).path "/",
                 size := i64_as_u64 (fs.get ⟨i, hi⟩).length }) ∧
    (t.files = none →
      (torrent_file_info t).files = [{ path := t.name, size := i64_as_u64 t.length }] ∧
      (torrent_file_info t).size = i64_as_u64 t.length) := by
  refine ⟨rfl, ?_, ?_⟩
  · intro fs hfs
    constructor
    · simp [torrent_file_info, torrent_file_files, hfs]
    · intro i hi
      show (torrent_file_files t)[i]? = _
      rw [torrent_file_files, hfs]
      rw [List.getElem?_map, List.getElem?_eq_getElem hi]
      rfl
  · intro hnone
    constructor
    · show torrent_file_files t = _
      rw [torrent_file_files, hnone]
    · show ((torrent_file_files t).map FileInfo.size).sum = _
      rw [torrent_file_files, hnone]
      simp

/-- A sample parsed multi-file torrent. -/
def sampleMulti : Torrent :=
  { name := "multi", length := 0,
    files := some [{ path := "a", length := 1 }, { path := "b", length := 2 }],
    announce := some "http://t1/announce",
    announce_list := some [["http://t2/announce"], ["http://t3/announce", "http://t4/announce"]],
    info_hash_bytes := [0, 255] }

/-- Witness for C6 on a concrete two-file torrent. -/
theorem C6_metadata_totals_witness :
    (torrent_file_info sampleMulti).files.length = 2 ∧
    (torrent_file_info sampleMulti).files[1]? =
      some { path := path_join "b" "/", size := i64_as_u64 2 } :=
  have h := (C6_metadata_totals sampleMulti).2.1
    [{ path := "a", length := 1 }, { path := "b", length := 2 }] rfl
  ⟨h.1, h.2 1 (by decide)⟩

/-! ### Claim C7: announce endpoint flattening -/

theorem foldl_push :
    ∀ (tier acc : List String),
      tier.foldl (fun acc2 url => acc2 ++ [url]) acc = acc ++ tier
  | [], acc => by simp
  | u :: rest, acc => by
    rw [List.foldl_cons, foldl_push rest (acc ++ [u])]
    simp

theorem foldl_flatten :
    ∀ (al : List (List String)) (acc : List String),
      al.foldl (fun acc tier => tier.foldl (fun acc2 url => acc2 ++ [url]) acc) acc =
        acc ++ al.flatten
  | [], acc => by simp
  | tier :: rest, acc => by
    rw [List.foldl_cons, foldl_flatten rest _, foldl_push tier acc]
    simp

/-- The announce endpoints as the spec words them: the primary announce
field, when present, followed by the announce-list flattened into one
ordered sequence, tier order preserved, in-tier order preserved. -/
def spec_announce_endpoints (t : Torrent) : List String :=
  t.announce.toList ++ (t.announce_list.getD []).flatten

/-- Claim C7: the announce_urls sequence built by the file add path equals
the primary announce followed by the flattened announce-list, tier order
and in-tier order preserved. -/
theorem C7_announce_order (t : Torrent) :
    (torrent_file_info t).announce_urls = spec_announce_endpoints t := by
  show torrent_file_announce_urls t = _
  unfold torrent_file_announce_urls spec_announce_endpoints
  cases ha : t.announce <;> cases hal : t.announce_list <;>
    simp [foldl_flatten]

/-! ### Claim C10: tick frame conditions -/

theorem uts_of_paused (k : String) (h : TorrentHandle) (hp : h.paused = true) :
    update_torrent_stats k h = (h, []) := by
  unfold update_torrent_stats
  rw [if_neg]
  simp [hp]

theorem uts_events_key (k : String) (h : TorrentHandle) :
    ∀ ev ∈ (update_torrent_stats k h).2, event_info_hash ev = k := by
  intro ev hev
  unfold update_torrent_stats at hev
  split at hev
  · simp only [List.mem_append, List.mem_singleton] at hev
    rcases hev with rfl | hev2
    · rfl
    · split at hev2
      · rw [List.mem_singleton.mp hev2]
        rfl
      · exact absurd hev2 (by simp)
  · exact absurd hev (by simp)

/-- Claim C10: a single reporter tick never adds or removes registry
entries (the key sequence is unchanged, only events are appended), and a
paused handle, whatever its progress, is left entirely unchanged at its
position, with no emitted event of that tick referencing its identifier. -/
theorem C10_tick_frame (engine : TorrentEngine) :
    ((engine_tick engine).torrents.map Prod.fst = engine.torrents.map Prod.fst) ∧
    ((engine_tick engine).torrents.length = engine.torrents.length) ∧
    (∀ (i : ℕ) (k : String) (h : TorrentHandle),
      engine.torrents[i]? = some (k, h) → h.paused = true →
      (engine_tick engine).torrents[i]? = some (k, h)) ∧
    ((engine_tick engine).events = engine.events ++ tick_new_events engine) ∧
    ((engine.torrents.map Prod.fst).Nodup →
      ∀ (k : String) (h : TorrentHandle), (k, h) ∈ engine.torrents → h.paused = true →
        ∀ ev ∈ tick_new_events engine, event_info_hash ev ≠ k) := by
  refine ⟨?_, ?_, ?_, rfl, ?_⟩
  · show (engine.torrents.map _).map Prod.fst = _
    rw [List.map_map]
    exact List.map_congr_left (fun kv _ => rfl)
  · show (engine.torrents.map _).length = _
    rw [List.length_map]
  · intro i k h hsome hp
    show (engine.torrents.map _)[i]? = _
    rw [List.getElem?_map, hsome]
    show some (k, (update_torrent_stats k h).1) = _
    rw [uts_of_paused k h hp]
  · intro hn k h hm hp ev hev
    unfold tick_new_events at hev
    obtain ⟨sub, hsub, hev2⟩ := List.mem_flatten.mp hev
    obtain ⟨kv, hkv, rfl⟩ := List.mem_map.mp hsub
    have hevk : event_info_hash ev = kv.1 := uts_events_key kv.1 kv.2 ev hev2
    by_cases hkeq : kv.1 = k
    · have hmem2 : (k, kv.2) ∈ engine.torrents := by rw [← hkeq]; exact hkv
      have heq : kv.2 = h := key_unique engine.torrents hn hmem2 hm
      rw [hkeq, heq, uts_of_paused k h hp] at hev2
      exact absurd hev2 (by simp)
    · rw [hevk]
      exact hkeq

/-- Witness for C10: the paused handle of the concrete engine survives the
tick untouched at its position. -/
theorem C10_tick_frame_witness :
    (engine_tick engineAbc).torrents[0]? = some ("abc", h0abc) :=
  (C10_tick_frame engineAbc).2.2.1 0 "abc" h0abc (by decide) (by decide)

end CosmicTorrent
